import Mathlib

set_option linter.unusedSectionVars false

/-!
Shallow embedding of `boost_demo/boost_statechart/boost_statechart.cpp`.

The demo file defines two machines on top of the Boost.Statechart engine:
a flat `Machine` whose single state `Greeting` prints on entry/exit, and a
`StopWatch` whose outermost state `Active` (holding `elapsedTime_`) nests
the two leaves `Stopped` and `Running`. The engine itself
(`boost::statechart::state_machine`, `simple_state`, `transition`, ...) is
not part of the repository's sources, so its dispatch/lifecycle behaviour
is modelled from the specification (sections 3, 4.3 and 4.4); the concrete
state hierarchies, reactions, entry/exit actions and elapsed-time
arithmetic are translated from the C++ source.

Wall-clock time (`std::time`, `std::difftime`) is modelled as an integer
number of seconds passed explicitly to every operation; `double` values
(which in the demo only ever hold sums and differences of whole seconds)
are modelled as `Int`.
-/

/-- Simulated wall-clock time in whole seconds (models `std::time_t`). -/
abbrev Time := Int

/-- Modelled from the spec: the Machine's macro-states
(uninitiated, initiated, terminated), spec section 3 "Machine". -/
inductive Phase
  | uninitiated
  | initiated
  | terminated
deriving DecidableEq, Repr

/-- One observable occurrence during a lifecycle operation: a state's entry
action, a state's exit action, or a reaction's custom action. -/
inductive ActionEv (σ : Type)
  | enterA (s : σ)
  | exitA (s : σ)
  | customA
deriving DecidableEq, Repr

/-- A declared reaction: a transition target plus an optional custom action
(spec section 4.1; `sc::transition< Event, Target >` in the demo has no
custom action). -/
structure Reaction (σ δ : Type) where
  target : σ
  act : Option (Time → δ → δ × List String)

/-- Modelled from the spec: the static description a concrete machine feeds
the Boost.Statechart engine (which is absent from src/): the outermost
state, each state's Context (parent), default inner-initial child and
reactions, and the entry/exit actions (constructors/destructors of the
state classes). `δ` is the machine-wide extended data (the fields of the
state objects), `ε` the event type, `depth` a bound on the nesting depth
used as recursion fuel. -/
structure Chart (σ ε δ : Type) where
  outermost : σ
  parent : σ → Option σ
  innerInit : σ → Option σ
  react : σ → ε → Option (Reaction σ δ)
  onEnter : σ → Time → δ → δ × List String
  onExit : σ → Time → δ → δ × List String
  depth : Nat

/-- Modelled from the spec: a Machine's dynamic state: its macro-state, the
Active-State Path (innermost/leaf first) and the extended data. -/
structure MState (σ δ : Type) where
  phase : Phase
  path : List σ
  data : δ
deriving Repr

/-- Result of one engine operation: the new machine state, the ordered
trace of entry/exit/custom actions that fired, and the console output the
actions produced. -/
structure StepRes (σ δ : Type) where
  st : MState σ δ
  trace : List (ActionEv σ)
  out : List String
deriving Repr

variable {σ ε δ : Type} [DecidableEq σ]

/-- Modelled from the spec (section 4.3 step 5): enter state `s` (running
its entry action), then keep descending through default inner-initial
children until a leaf is reached. Returns the entered chain (leaf first),
the updated data, the entry trace (outermost first) and the output. -/
def Chart.enterChain (C : Chart σ ε δ) :
    Nat → σ → Time → δ → List σ × δ × List (ActionEv σ) × List String
  | 0, s, now, d =>
      match C.onEnter s now d with
      | (d1, o1) => ([s], d1, [ActionEv.enterA s], o1)
  | fuel + 1, s, now, d =>
      match C.onEnter s now d with
      | (d1, o1) =>
          match C.innerInit s with
          | none => ([s], d1, [ActionEv.enterA s], o1)
          | some c =>
              match C.enterChain fuel c now d1 with
              | (ps, d2, tr, o2) =>
                  (ps ++ [s], d2, ActionEv.enterA s :: tr, o1 ++ o2)

/-- Modelled from the spec (section 4.3 step 3): exit states from the leaf
upward, strictly innermost-first, stopping (exclusively) at the boundary
state; `none` as boundary exits the whole path. Returns the remaining
path, updated data, exit trace and output. -/
def Chart.exitUpTo (C : Chart σ ε δ) (boundary : Option σ) (now : Time) :
    List σ → δ → List σ × δ × List (ActionEv σ) × List String
  | [], d => ([], d, [], [])
  | s :: rest, d =>
      if boundary = some s then (s :: rest, d, [], [])
      else
        match C.onExit s now d with
        | (d1, o1) =>
            match C.exitUpTo boundary now rest d1 with
            | (ps, d2, tr, o2) => (ps, d2, ActionEv.exitA s :: tr, o1 ++ o2)

/-- The chain of static ancestors of `s`, starting at `s` itself
(innermost first), following `parent` links. -/
def Chart.chainUp (C : Chart σ ε δ) : Nat → σ → List σ
  | 0, s => [s]
  | fuel + 1, s =>
      match C.parent s with
      | none => [s]
      | some p => s :: C.chainUp fuel p

/-- Modelled from the spec (section 4.3 step 2): the least common ancestor
of `S` and `T` in the static hierarchy: the innermost ancestor-or-self of
`S` that is also an ancestor-or-self of `T`. -/
def Chart.lca (C : Chart σ ε δ) (S T : σ) : Option σ :=
  (C.chainUp C.depth S).find? (fun x => decide (x ∈ C.chainUp C.depth T))

/-- Modelled from the spec (section 4.3 step 1): starting at the leaf,
search upward through the Active-State Path for the first state declaring
a reaction for the event. -/
def Chart.findHandler (C : Chart σ ε δ) : List σ → ε → Option (σ × Reaction σ δ)
  | [], _ => none
  | s :: rest, ev =>
      match C.react s ev with
      | some r => some (s, r)
      | none => C.findHandler rest ev

/-- Modelled from the spec (section 4.3 step 5): enter, outermost first,
the given chain of states ending in the transition target; the target
itself additionally descends through its default inner-initial children. -/
def Chart.enterPath (C : Chart σ ε δ) :
    List σ → Time → δ → List σ × δ × List (ActionEv σ) × List String
  | [], _, d => ([], d, [], [])
  | [t], now, d => C.enterChain C.depth t now d
  | s :: rest, now, d =>
      match C.onEnter s now d with
      | (d1, o1) =>
          match C.enterPath rest now d1 with
          | (ps, d2, tr, o2) => (ps ++ [s], d2, ActionEv.enterA s :: tr, o1 ++ o2)

/-- Modelled from the spec (section 4.4): `initiate` fails if the machine
is not uninitiated; otherwise it performs the entry phase from the
outermost state down through default inner-initial children to a leaf. -/
def Chart.initiate (C : Chart σ ε δ) (m : MState σ δ) (now : Time) :
    Except String (StepRes σ δ) :=
  if m.phase ≠ Phase.uninitiated then
    Except.error "precondition violation: initiate on an already initiated machine"
  else
    match C.enterChain C.depth C.outermost now m.data with
    | (ps, d1, tr, o1) => Except.ok ⟨⟨Phase.initiated, ps, d1⟩, tr, o1⟩

/-- Modelled from the spec (section 4.3 step 5): the entry phase of a
transition with target `T` and exit boundary `boundary`: enter, outermost
first, the ancestors-or-self of `T` strictly inside the boundary and
descend from `T` through default inner-initial children; when `T` itself
is the boundary (an outward transition whose target remained active), only
the canonical descent from `T`'s default inner-initial child runs. -/
def Chart.enterTarget (C : Chart σ ε δ) (boundary : Option σ) (T : σ) (now : Time) (d : δ) :
    List σ × δ × List (ActionEv σ) × List String :=
  let tSide := ((C.chainUp C.depth T).takeWhile (fun x => decide (boundary ≠ some x))).reverse
  if tSide.isEmpty then
    match C.innerInit T with
    | none => ([], d, [], [])
    | some c => C.enterChain C.depth c now d
  else C.enterPath tSide now d

/-- Modelled from the spec (sections 4.3 and 4.4): `process_event` fails if
the machine is not initiated; otherwise the first state on the
Active-State Path (innermost first) declaring a reaction for the event
handles it, and an unhandled event is silently discarded. A handled event
with source `S` and target `T` exits every active state strictly inside
the boundary (the LCA of `S` and `T`, or `S`'s parent for a
self-transition, so that `S` itself is exited and re-entered), runs the
custom action, then enters the target side outermost-first and descends to
a leaf. -/
def Chart.processEvent (C : Chart σ ε δ) (m : MState σ δ) (ev : ε) (now : Time) :
    Except String (StepRes σ δ) :=
  if m.phase ≠ Phase.initiated then
    Except.error "precondition violation: process_event on a machine that is not initiated"
  else
    match C.findHandler m.path ev with
    | none => Except.ok ⟨m, [], []⟩
    | some (S, r) =>
        let T := r.target
        let boundary := if T = S then C.parent S else C.lca S T
        match C.exitUpTo boundary now m.path m.data with
        | (rem, d1, trX, o1) =>
            match
              (match r.act with
               | none => (d1, ([] : List (ActionEv σ)), ([] : List String))
               | some a =>
                   match a now d1 with
                   | (d2, o2) => (d2, [ActionEv.customA], o2)) with
            | (d2, trA, o2) =>
                match C.enterTarget boundary T now d2 with
                | (ps, d3, trE, o3) =>
                    Except.ok ⟨⟨Phase.initiated, ps ++ rem, d3⟩,
                               trX ++ trA ++ trE, o1 ++ o2 ++ o3⟩

/-- Modelled from the spec (section 4.4): `terminate` (or Machine
destruction) exits every state on the Active-State Path innermost-first
and marks the machine terminated; on a machine that is not initiated it
has no effect and does not fail. -/
def Chart.terminate (C : Chart σ ε δ) (m : MState σ δ) (now : Time) : StepRes σ δ :=
  if m.phase = Phase.initiated then
    match C.exitUpTo none now m.path m.data with
    | (_, d1, tr, o1) => ⟨⟨Phase.terminated, [], d1⟩, tr, o1⟩
  else ⟨m, [], []⟩

/-- Modelled from the spec (section 4.4): `state_cast< Capability >` scans
the Active-State Path (innermost first) for a state implementing the
requested capability. -/
def Chart.stateCast (m : MState σ δ) (impl : σ → Bool) : Option σ :=
  m.path.find? impl

/-- Process a list of timestamped events in order, failing if any single
`process_event` fails, and concatenating the traces and outputs. -/
def Chart.runEvents (C : Chart σ ε δ) (m : MState σ δ) :
    List (ε × Time) → Option (MState σ δ × List (ActionEv σ) × List String)
  | [] => some (m, [], [])
  | (e, t) :: rest =>
      match C.processEvent m e t with
      | Except.error _ => none
      | Except.ok r =>
          match C.runEvents r.st rest with
          | none => none
          | some (m2, tr, o) => some (m2, r.trace ++ tr, r.out ++ o)

/-! ## The Greeting machine (`Machine` / `Greeting` in the source) -/

/-- The single state of the flat `Machine`: `struct Greeting`. -/
inductive GState
  | Greeting
deriving DecidableEq, Repr

/-- The `Machine` of the source: outermost (and only) state `Greeting`,
whose constructor prints `Hello World!\n` and whose destructor prints
`Bye Bye World!\n`; no reactions are declared for any event (event tags
are modelled as arbitrary naturals, since the source defines no event for
this machine). -/
def greetingChart : Chart GState Nat Unit where
  outermost := GState.Greeting
  parent := fun _ => none
  innerInit := fun _ => none
  react := fun _ _ => none
  onEnter := fun _ _ _ => ((), ["Hello World!\n"])
  onExit := fun _ _ _ => ((), ["Bye Bye World!\n"])
  depth := 1

/-- A freshly constructed, not yet initiated `Machine myMachine`. -/
def greetingUninit : MState GState Unit := ⟨Phase.uninitiated, [], ()⟩

/-! ## The StopWatch machine -/

/-- The states of the `StopWatch`: outermost `Active` with inner leaves
`Stopped` and `Running`. -/
inductive SWState
  | Active
  | Stopped
  | Running
deriving DecidableEq, Repr

/-- The two events of the stopwatch: `EvStartStop` and `EvReset`. -/
inductive SWEvent
  | EvStartStop
  | EvReset
deriving DecidableEq, Repr

/-- The extended state of the stopwatch: `Active::elapsedTime_` and
`Running::startTime_` (the latter is meaningful only while `Running` is
active, exactly as the C++ member exists only while the `Running` object
does). -/
structure SWData where
  elapsedTime : Int
  startTime : Time
deriving DecidableEq, Repr

/-- The `StopWatch` chart, translated from the source:
* `Active` is outermost, its inner initial state is `Stopped`, it reacts
  to `EvReset` by a transition to `Active` itself, its constructor sets
  `elapsedTime_ = 0.0`;
* `Running` reacts to `EvStartStop` with target `Stopped`; its constructor
  stores `startTime_ = std::time(0)` and its destructor stores
  `context< Active >().ElapsedTime() = ElapsedTime()`, i.e. adds
  `difftime(now, startTime_)` to the accumulated time;
* `Stopped` reacts to `EvStartStop` with target `Running`. -/
def swChart : Chart SWState SWEvent SWData where
  outermost := SWState.Active
  parent := fun s =>
    match s with
    | SWState.Active => none
    | SWState.Stopped => some SWState.Active
    | SWState.Running => some SWState.Active
  innerInit := fun s =>
    match s with
    | SWState.Active => some SWState.Stopped
    | _ => none
  react := fun s ev =>
    match s, ev with
    | SWState.Active, SWEvent.EvReset => some ⟨SWState.Active, none⟩
    | SWState.Stopped, SWEvent.EvStartStop => some ⟨SWState.Running, none⟩
    | SWState.Running, SWEvent.EvStartStop => some ⟨SWState.Stopped, none⟩
    | _, _ => none
  onEnter := fun s now d =>
    match s with
    | SWState.Active => ({ d with elapsedTime := 0 }, [])
    | SWState.Running => ({ d with startTime := now }, [])
    | SWState.Stopped => (d, [])
  onExit := fun s now d =>
    match s with
    | SWState.Running =>
        ({ d with elapsedTime := d.elapsedTime + (now - d.startTime) }, [])
    | _ => (d, [])
  depth := 4

/-- A freshly constructed, not yet initiated `StopWatch myWatch`; the C++
members are uninitialized before any entry action runs, so the initial
data is an arbitrary parameter. -/
def swUninit (d : SWData) : MState SWState SWData := ⟨Phase.uninitiated, [], d⟩

/-- Which states implement the `IElapsedTime` capability: `Running` and
`Stopped` derive from `IElapsedTime`; `Active` does not. -/
def implementsIET : SWState → Bool
  | SWState.Active => false
  | SWState.Stopped => true
  | SWState.Running => true

/-- The `ElapsedTime` virtual of each state, from the source:
`Stopped::ElapsedTime` returns `context< Active >().ElapsedTime()`;
`Running::ElapsedTime` returns it plus `difftime(std::time(0), startTime_)`
(`Active`'s own accessor just returns the field). -/
def SWState.elapsedTimeOf : SWState → Time → SWData → Int
  | SWState.Stopped, _, d => d.elapsedTime
  | SWState.Running, now, d => d.elapsedTime + (now - d.startTime)
  | SWState.Active, _, d => d.elapsedTime

/-- `StopWatch::ElapsedTime`: `state_cast< const IElapsedTime & >()` scans
the Active-State Path for the state implementing `IElapsedTime` and calls
its `ElapsedTime()`; `none` models the failure of `state_cast` when no
active state implements the capability. -/
def StopWatch.ElapsedTime (m : MState SWState SWData) (now : Time) : Option Int :=
  (Chart.stateCast m implementsIET).map (fun s => s.elapsedTimeOf now m.data)

/-- The machine states of the `StopWatch` reachable through the engine:
any result of `initiate` on a fresh machine, closed under successful
`process_event`. -/
inductive SWReach : MState SWState SWData → Prop
  | init (d : SWData) (now : Time) (r : StepRes SWState SWData)
      (h : swChart.initiate (swUninit d) now = Except.ok r) : SWReach r.st
  | step (m : MState SWState SWData) (ev : SWEvent) (now : Time)
      (r : StepRes SWState SWData) (hm : SWReach m)
      (h : swChart.processEvent m ev now = Except.ok r) : SWReach r.st

/-! ## Helper lemmas -/

/-- `initiate` on a fresh `StopWatch`: enters `Active` (resetting the
elapsed time) and then its default inner-initial child `Stopped`. -/
theorem swInitiate_eq (d : SWData) (now : Time) :
    swChart.initiate (swUninit d) now =
      Except.ok ⟨⟨Phase.initiated, [SWState.Stopped, SWState.Active], ⟨0, d.startTime⟩⟩,
        [ActionEv.enterA SWState.Active, ActionEv.enterA SWState.Stopped], []⟩ := rfl

/-- `EvStartStop` in `Stopped`: exit `Stopped`, enter `Running` (which
records the current time as its start time). -/
theorem swStep_stopped_startStop (d : SWData) (now : Time) :
    swChart.processEvent ⟨Phase.initiated, [SWState.Stopped, SWState.Active], d⟩
        SWEvent.EvStartStop now =
      Except.ok ⟨⟨Phase.initiated, [SWState.Running, SWState.Active], ⟨d.elapsedTime, now⟩⟩,
        [ActionEv.exitA SWState.Stopped, ActionEv.enterA SWState.Running], []⟩ := rfl

/-- `EvStartStop` in `Running`: exit `Running` (whose destructor folds the
run's duration into `Active`'s accumulated time), enter `Stopped`. -/
theorem swStep_running_startStop (d : SWData) (now : Time) :
    swChart.processEvent ⟨Phase.initiated, [SWState.Running, SWState.Active], d⟩
        SWEvent.EvStartStop now =
      Except.ok ⟨⟨Phase.initiated, [SWState.Stopped, SWState.Active],
          ⟨d.elapsedTime + (now - d.startTime), d.startTime⟩⟩,
        [ActionEv.exitA SWState.Running, ActionEv.enterA SWState.Stopped], []⟩ := rfl

/-- `EvReset` in `Running`: the `Active` self-transition exits `Running`
and `Active` and re-enters `Active` (zeroing the elapsed time) and its
default child `Stopped`. -/
theorem swStep_running_reset (d : SWData) (now : Time) :
    swChart.processEvent ⟨Phase.initiated, [SWState.Running, SWState.Active], d⟩
        SWEvent.EvReset now =
      Except.ok ⟨⟨Phase.initiated, [SWState.Stopped, SWState.Active], ⟨0, d.startTime⟩⟩,
        [ActionEv.exitA SWState.Running, ActionEv.exitA SWState.Active,
         ActionEv.enterA SWState.Active, ActionEv.enterA SWState.Stopped], []⟩ := rfl

/-- `EvReset` in `Stopped`: the `Active` self-transition exits `Stopped`
and `Active` and re-enters `Active` (zeroing the elapsed time) and its
default child `Stopped`. -/
theorem swStep_stopped_reset (d : SWData) (now : Time) :
    swChart.processEvent ⟨Phase.initiated, [SWState.Stopped, SWState.Active], d⟩
        SWEvent.EvReset now =
      Except.ok ⟨⟨Phase.initiated, [SWState.Stopped, SWState.Active], ⟨0, d.startTime⟩⟩,
        [ActionEv.exitA SWState.Stopped, ActionEv.exitA SWState.Active,
         ActionEv.enterA SWState.Active, ActionEv.enterA SWState.Stopped], []⟩ := rfl

/-- A successful handler search returns the first state on the path
(innermost first) declaring a reaction for the event: every state strictly
before it on the path declares none. -/
theorem findHandler_first_match (C : Chart σ ε δ) :
    ∀ (path : List σ) (ev : ε) (S : σ) (r : Reaction σ δ),
      C.findHandler path ev = some (S, r) →
      ∃ pre post, path = pre ++ S :: post
        ∧ (∀ x ∈ pre, C.react x ev = none)
        ∧ C.react S ev = some r := by
  intro path
  induction path with
  | nil =>
      intro ev S r h
      exact absurd h (by simp [Chart.findHandler])
  | cons s rest ih =>
      intro ev S r h
      rw [Chart.findHandler] at h
      cases hr : C.react s ev with
      | some r0 =>
          rw [hr] at h
          simp only [Option.some.injEq, Prod.mk.injEq] at h
          obtain ⟨hS, hr0⟩ := h
          subst hS
          subst hr0
          exact ⟨[], rest, rfl, ⟨fun x hx => absurd hx (List.not_mem_nil x), hr⟩⟩
      | none =>
          rw [hr] at h
          obtain ⟨pre, post, hp, hpre, hS⟩ := ih ev S r h
          refine ⟨s :: pre, post, by rw [hp]; rfl, ?_, hS⟩
          intro x hx
          rcases List.mem_cons.mp hx with h1 | h2
          · subst h1; exact hr
          · exact hpre x h2

/-- An event with no matching reaction anywhere on the Active-State Path is
silently discarded: `process_event` succeeds and leaves the machine state
unchanged, firing no action. -/
theorem processEvent_unhandled (C : Chart σ ε δ) (m : MState σ δ) (ev : ε) (now : Time)
    (hph : m.phase = Phase.initiated) (hf : C.findHandler m.path ev = none) :
    C.processEvent m ev now = Except.ok ⟨m, [], []⟩ := by
  unfold Chart.processEvent
  rw [hph, hf]
  simp

/-- Exiting with no boundary empties the Active-State Path and runs the
exit action of every state on it, in path (innermost-first) order. -/
theorem exitUpTo_none (C : Chart σ ε δ) (now : Time) :
    ∀ (path : List σ) (d : δ),
      ∃ d2 o, C.exitUpTo none now path d = ([], d2, path.map ActionEv.exitA, o) := by
  intro path
  induction path with
  | nil => intro d; exact ⟨d, [], rfl⟩
  | cons s rest ih =>
      intro d
      rcases hE : C.onExit s now d with ⟨d1, o1⟩
      obtain ⟨d2, o, h⟩ := ih d1
      refine ⟨d2, o1 ++ o, ?_⟩
      rw [Chart.exitUpTo, if_neg (by simp)]
      simp only [hE, h, List.map_cons]

/-- Every action fired during the exit phase is an exit action. -/
theorem exitUpTo_trace_exits (C : Chart σ ε δ) (boundary : Option σ) (now : Time) :
    ∀ (path : List σ) (d : δ) (ps : List σ) (d2 : δ) (tr : List (ActionEv σ))
      (o : List String),
      C.exitUpTo boundary now path d = (ps, d2, tr, o) →
      ∀ a ∈ tr, ∃ x, a = ActionEv.exitA x := by
  intro path
  induction path with
  | nil =>
      intro d ps d2 tr o h a ha
      rw [Chart.exitUpTo] at h
      simp only [Prod.mk.injEq] at h
      obtain ⟨-, -, htr, -⟩ := h
      rw [← htr] at ha
      cases ha
  | cons s rest ih =>
      intro d ps d2 tr o h a ha
      rw [Chart.exitUpTo] at h
      by_cases hb : boundary = some s
      · rw [if_pos hb] at h
        simp only [Prod.mk.injEq] at h
        obtain ⟨-, -, htr, -⟩ := h
        rw [← htr] at ha
        cases ha
      · rw [if_neg hb] at h
        rcases hE : C.onExit s now d with ⟨d1, o1⟩
        rcases hR : C.exitUpTo boundary now rest d1 with ⟨ps1, d21, tr1, o2⟩
        simp only [hE, hR, Prod.mk.injEq] at h
        obtain ⟨-, -, htr, -⟩ := h
        rw [← htr] at ha
        rcases List.mem_cons.mp ha with h1 | h2
        · exact ⟨s, h1⟩
        · exact ih d1 ps1 d21 tr1 o2 hR a h2

/-- Every action fired while descending through a state and its default
inner-initial children is an entry action. -/
theorem enterChain_trace_enters (C : Chart σ ε δ) (now : Time) :
    ∀ (fuel : Nat) (s : σ) (d : δ) (ps : List σ) (d2 : δ) (tr : List (ActionEv σ))
      (o : List String),
      C.enterChain fuel s now d = (ps, d2, tr, o) →
      ∀ a ∈ tr, ∃ x, a = ActionEv.enterA x := by
  intro fuel
  induction fuel with
  | zero =>
      intro s d ps d2 tr o h a ha
      rcases hE : C.onEnter s now d with ⟨d1, o1⟩
      rw [Chart.enterChain, hE] at h
      simp only [Prod.mk.injEq] at h
      obtain ⟨-, -, htr, -⟩ := h
      rw [← htr] at ha
      rcases List.mem_cons.mp ha with h1 | h2
      · exact ⟨s, h1⟩
      · cases h2
  | succ fuel ih =>
      intro s d ps d2 tr o h a ha
      rcases hE : C.onEnter s now d with ⟨d1, o1⟩
      rw [Chart.enterChain, hE] at h
      cases hin : C.innerInit s with
      | none =>
          rw [hin] at h
          simp only [Prod.mk.injEq] at h
          obtain ⟨-, -, htr, -⟩ := h
          rw [← htr] at ha
          rcases List.mem_cons.mp ha with h1 | h2
          · exact ⟨s, h1⟩
          · cases h2
      | some c =>
          rw [hin] at h
          rcases hR : C.enterChain fuel c now d1 with ⟨ps1, d21, tr1, o2⟩
          simp only [hR, Prod.mk.injEq] at h
          obtain ⟨-, -, htr, -⟩ := h
          rw [← htr] at ha
          rcases List.mem_cons.mp ha with h1 | h2
          · exact ⟨s, h1⟩
          · exact ih c d1 ps1 d21 tr1 o2 hR a h2

/-- Every action fired while entering a chain of states (ending in the
transition target) is an entry action. -/
theorem enterPath_trace_enters (C : Chart σ ε δ) (now : Time) :
    ∀ (l : List σ) (d : δ) (ps : List σ) (d2 : δ) (tr : List (ActionEv σ))
      (o : List String),
      C.enterPath l now d = (ps, d2, tr, o) →
      ∀ a ∈ tr, ∃ x, a = ActionEv.enterA x := by
  intro l
  induction l with
  | nil =>
      intro d ps d2 tr o h a ha
      rw [Chart.enterPath] at h
      simp only [Prod.mk.injEq] at h
      obtain ⟨-, -, htr, -⟩ := h
      rw [← htr] at ha
      cases ha
  | cons s rest ih =>
      cases rest with
      | nil =>
          intro d ps d2 tr o h a ha
          rw [Chart.enterPath] at h
          exact enterChain_trace_enters C now C.depth s d ps d2 tr o h a ha
      | cons t rest2 =>
          intro d ps d2 tr o h a ha
          rcases hE : C.onEnter s now d with ⟨d1, o1⟩
          rw [Chart.enterPath] at h
          rcases hR : C.enterPath (t :: rest2) now d1 with ⟨ps1, d21, tr1, o2⟩
          simp only [hE, hR, Prod.mk.injEq] at h
          obtain ⟨-, -, htr, -⟩ := h
          rw [← htr] at ha
          rcases List.mem_cons.mp ha with h1 | h2
          · exact ⟨s, h1⟩
          · exact ih d1 ps1 d21 tr1 o2 hR a h2
          · simp

/-- Every action fired during the entry phase of a transition is an entry
action. -/
theorem enterTarget_trace_enters (C : Chart σ ε δ) (boundary : Option σ) (T : σ)
    (now : Time) (d : δ) (ps : List σ) (d2 : δ) (tr : List (ActionEv σ))
    (o : List String)
    (h : C.enterTarget boundary T now d = (ps, d2, tr, o)) :
    ∀ a ∈ tr, ∃ x, a = ActionEv.enterA x := by
  intro a ha
  unfold Chart.enterTarget at h
  by_cases hts :
      ((C.chainUp C.depth T).takeWhile (fun x => decide (boundary ≠ some x))).reverse.isEmpty
  · rw [if_pos hts] at h
    cases hin : C.innerInit T with
    | none =>
        rw [hin] at h
        simp only [Prod.mk.injEq] at h
        obtain ⟨-, -, htr, -⟩ := h
        rw [← htr] at ha
        cases ha
    | some c =>
        rw [hin] at h
        exact enterChain_trace_enters C now C.depth c d ps d2 tr o h a ha
  · rw [if_neg hts] at h
    exact enterPath_trace_enters C now _ d ps d2 tr o h a ha

/-- Processing a list of events none of which changes the machine state or
fires an action leaves the machine unchanged with an empty trace. -/
theorem runEvents_const (C : Chart σ ε δ) (m : MState σ δ)
    (h : ∀ e t, C.processEvent m e t = Except.ok ⟨m, [], []⟩) :
    ∀ evs, C.runEvents m evs = some (m, [], []) := by
  intro evs
  induction evs with
  | nil => rfl
  | cons p rest ih =>
      obtain ⟨e, t⟩ := p
      rw [Chart.runEvents, h e t]
      simp [ih]

/-- The reachability invariant of the `StopWatch`: every machine state
produced by `initiate` and preserved by `process_event` is initiated with
Active-State Path `Stopped → Active` or `Running → Active`. -/
theorem swReach_invariant (m : MState SWState SWData) (h : SWReach m) :
    m.phase = Phase.initiated
    ∧ (m.path = [SWState.Stopped, SWState.Active]
       ∨ m.path = [SWState.Running, SWState.Active]) := by
  induction h with
  | init d now r h =>
      have h2 := h.symm.trans (swInitiate_eq d now)
      injection h2 with h3
      subst h3
      exact ⟨rfl, Or.inl rfl⟩
  | step m ev now r hm h ih =>
      obtain ⟨hph, hpath⟩ := ih
      obtain ⟨ph, path, dat⟩ := m
      simp only at hph hpath
      subst hph
      rcases hpath with hp | hp <;> subst hp <;> cases ev
      · have h2 := h.symm.trans (swStep_stopped_startStop dat now)
        injection h2 with h3
        subst h3
        exact ⟨rfl, Or.inr rfl⟩
      · have h2 := h.symm.trans (swStep_stopped_reset dat now)
        injection h2 with h3
        subst h3
        exact ⟨rfl, Or.inl rfl⟩
      · have h2 := h.symm.trans (swStep_running_startStop dat now)
        injection h2 with h3
        subst h3
        exact ⟨rfl, Or.inl rfl⟩
      · have h2 := h.symm.trans (swStep_running_reset dat now)
        injection h2 with h3
        subst h3
        exact ⟨rfl, Or.inl rfl⟩

/-! ## Theorems -/

/-- C1: Stopwatch elapsed-time accumulation: after `initiate` the active
leaf is `Stopped` with `ElapsedTime` 0; an `EvStartStop` moves to
`Running`, after which `ElapsedTime` grows (`t1` after `t1` seconds); a
second `EvStartStop` moves back to `Stopped` with `Running`'s exit having
stored the accumulated `t1` into `Active`, and `ElapsedTime` stays frozen
at `t1`; a third `EvStartStop` re-enters `Running` and `t2` seconds later
`ElapsedTime` equals `t1 + t2`. -/
theorem stopwatch_elapsed_accumulation (d0 : SWData) (s0 a t1 b t2 : Time) :
    ∃ r0 r1 r2 r3 : StepRes SWState SWData,
      swChart.initiate (swUninit d0) s0 = Except.ok r0
      ∧ r0.st.path.head? = some SWState.Stopped
      ∧ StopWatch.ElapsedTime r0.st s0 = some 0
      ∧ swChart.processEvent r0.st SWEvent.EvStartStop a = Except.ok r1
      ∧ r1.st.path.head? = some SWState.Running
      ∧ StopWatch.ElapsedTime r1.st (a + t1) = some t1
      ∧ swChart.processEvent r1.st SWEvent.EvStartStop (a + t1) = Except.ok r2
      ∧ r2.st.path.head? = some SWState.Stopped
      ∧ r2.st.data.elapsedTime = t1
      ∧ (∀ c : Time, StopWatch.ElapsedTime r2.st c = some t1)
      ∧ swChart.processEvent r2.st SWEvent.EvStartStop b = Except.ok r3
      ∧ r3.st.path.head? = some SWState.Running
      ∧ StopWatch.ElapsedTime r3.st (b + t2) = some (t1 + t2) := by
  refine ⟨⟨⟨Phase.initiated, [SWState.Stopped, SWState.Active], ⟨0, d0.startTime⟩⟩,
        [ActionEv.enterA SWState.Active, ActionEv.enterA SWState.Stopped], []⟩,
      ⟨⟨Phase.initiated, [SWState.Running, SWState.Active], ⟨0, a⟩⟩,
        [ActionEv.exitA SWState.Stopped, ActionEv.enterA SWState.Running], []⟩,
      ⟨⟨Phase.initiated, [SWState.Stopped, SWState.Active], ⟨0 + (a + t1 - a), a⟩⟩,
        [ActionEv.exitA SWState.Running, ActionEv.enterA SWState.Stopped], []⟩,
      ⟨⟨Phase.initiated, [SWState.Running, SWState.Active], ⟨0 + (a + t1 - a), b⟩⟩,
        [ActionEv.exitA SWState.Stopped, ActionEv.enterA SWState.Running], []⟩,
      rfl, rfl, rfl, rfl, rfl, ?_, rfl, rfl, ?_, ?_, rfl, rfl, ?_⟩
  · show some ((0 : Int) + (a + t1 - a)) = some t1
    simp only [Option.some.injEq]
    omega
  · show (0 : Int) + (a + t1 - a) = t1
    omega
  · intro c
    show some ((0 : Int) + (a + t1 - a)) = some t1
    simp only [Option.some.injEq]
    omega
  · show some ((0 : Int) + (a + t1 - a) + (b + t2 - b)) = some (t1 + t2)
    simp only [Option.some.injEq]
    omega

/-- C2: `EvReset` while `Running` is handled by the reaction declared on
the ancestor `Active` with target `Active` itself; the self-transition
exits and re-enters `Active` (both its exit and entry actions fire, i.e.
the state object is destroyed and reconstructed), and the machine ends in
`Active`'s default inner-initial child `Stopped` with `ElapsedTime` reset
to 0. -/
theorem evReset_running_self_transition (d : SWData) (now : Time) :
    swChart.findHandler [SWState.Running, SWState.Active] SWEvent.EvReset
        = some (SWState.Active, ⟨SWState.Active, none⟩)
    ∧ swChart.processEvent ⟨Phase.initiated, [SWState.Running, SWState.Active], d⟩
          SWEvent.EvReset now
        = Except.ok ⟨⟨Phase.initiated, [SWState.Stopped, SWState.Active], ⟨0, d.startTime⟩⟩,
            [ActionEv.exitA SWState.Running, ActionEv.exitA SWState.Active,
             ActionEv.enterA SWState.Active, ActionEv.enterA SWState.Stopped], []⟩
    ∧ StopWatch.ElapsedTime
          ⟨Phase.initiated, [SWState.Stopped, SWState.Active], ⟨0, d.startTime⟩⟩ now
        = some 0 :=
  ⟨rfl, rfl, rfl⟩

/-- C10: `EvReset` while `Stopped` also fires the `Active` self-transition:
`Stopped` and `Active` are exited, `Active` is reconstructed with
`elapsedTime_ = 0`, its default inner-initial child `Stopped` is
re-entered, and the machine remains in `Stopped` with `ElapsedTime` 0. -/
theorem evReset_stopped_self_transition (d : SWData) (now : Time) :
    swChart.processEvent ⟨Phase.initiated, [SWState.Stopped, SWState.Active], d⟩
          SWEvent.EvReset now
        = Except.ok ⟨⟨Phase.initiated, [SWState.Stopped, SWState.Active], ⟨0, d.startTime⟩⟩,
            [ActionEv.exitA SWState.Stopped, ActionEv.exitA SWState.Active,
             ActionEv.enterA SWState.Active, ActionEv.enterA SWState.Stopped], []⟩
    ∧ StopWatch.ElapsedTime
          ⟨Phase.initiated, [SWState.Stopped, SWState.Active], ⟨0, d.startTime⟩⟩ now
        = some 0 :=
  ⟨rfl, rfl⟩

/-- C3: dispatch searches for a handler from the active leaf upward: a
handled event is handled by the first state on the Active-State Path
(innermost first) declaring a reaction for it; an event no state on the
path handles is silently discarded — `process_event` succeeds and leaves
the machine state (path and data) unchanged, firing no action — and in
particular any event sent to the initiated Greeting machine, which
declares no reactions, is discarded. -/
theorem dispatch_first_match_and_discard :
    (∀ (τ η ρ : Type) [DecidableEq τ] (C : Chart τ η ρ) (path : List τ) (ev : η)
        (S : τ) (r : Reaction τ ρ),
        C.findHandler path ev = some (S, r) →
        ∃ pre post, path = pre ++ S :: post
          ∧ (∀ x ∈ pre, C.react x ev = none)
          ∧ C.react S ev = some r)
    ∧ (∀ (τ η ρ : Type) [DecidableEq τ] (C : Chart τ η ρ) (m : MState τ ρ) (ev : η)
        (now : Time),
        m.phase = Phase.initiated →
        C.findHandler m.path ev = none →
        C.processEvent m ev now = Except.ok ⟨m, [], []⟩)
    ∧ (∀ (ev : Nat) (now : Time),
        greetingChart.findHandler [GState.Greeting] ev = none
        ∧ greetingChart.processEvent ⟨Phase.initiated, [GState.Greeting], ()⟩ ev now
            = Except.ok ⟨⟨Phase.initiated, [GState.Greeting], ()⟩, [], []⟩) := by
  refine ⟨?_, ?_, ?_⟩
  · intro τ η ρ inst C path ev S r h
    exact findHandler_first_match C path ev S r h
  · intro τ η ρ inst C m ev now h1 h2
    exact processEvent_unhandled C m ev now h1 h2
  · intro ev now
    exact ⟨rfl, rfl⟩

/-- Witness for C3: on the StopWatch the handler search finds `Running`
first on the path `[Running, Active]` for `EvStartStop`, and on the
Greeting machine a concrete event is discarded without effect. -/
theorem dispatch_first_match_and_discard_witness :
    (∃ pre post, [SWState.Running, SWState.Active] = pre ++ SWState.Running :: post
       ∧ (∀ x ∈ pre, swChart.react x SWEvent.EvStartStop = none)
       ∧ swChart.react SWState.Running SWEvent.EvStartStop
           = some ⟨SWState.Stopped, none⟩)
    ∧ greetingChart.processEvent ⟨Phase.initiated, [GState.Greeting], ()⟩ 7 3
        = Except.ok ⟨⟨Phase.initiated, [GState.Greeting], ()⟩, [], []⟩ :=
  ⟨dispatch_first_match_and_discard.1 SWState SWEvent SWData swChart
      [SWState.Running, SWState.Active] SWEvent.EvStartStop SWState.Running
      ⟨SWState.Stopped, none⟩ rfl,
   dispatch_first_match_and_discard.2.1 GState Nat Unit greetingChart
      ⟨Phase.initiated, [GState.Greeting], ()⟩ 7 3 rfl rfl⟩

/-- C4: entry/exit ordering: during `initiate` of the StopWatch, `Active`'s
entry precedes `Stopped`'s entry (entries are outermost-first); on
`EvStartStop` in `Running`, `Running`'s destructor runs before `Stopped`'s
constructor; and generically, every handled transition's trace is the exit
phase (exit actions only, innermost-first by construction), then the
reaction's custom action if any, then the entry phase (entry actions
only). -/
theorem transition_entry_exit_ordering :
    (∀ (d0 : SWData) (now : Time),
        (swChart.initiate (swUninit d0) now).map StepRes.trace
          = Except.ok [ActionEv.enterA SWState.Active, ActionEv.enterA SWState.Stopped])
    ∧ (∀ (d : SWData) (now : Time),
        (swChart.processEvent ⟨Phase.initiated, [SWState.Running, SWState.Active], d⟩
              SWEvent.EvStartStop now).map StepRes.trace
          = Except.ok [ActionEv.exitA SWState.Running, ActionEv.enterA SWState.Stopped])
    ∧ (∀ (τ η ρ : Type) [DecidableEq τ] (C : Chart τ η ρ) (m : MState τ ρ) (ev : η)
        (now : Time) (S : τ) (r : Reaction τ ρ),
        m.phase = Phase.initiated →
        C.findHandler m.path ev = some (S, r) →
        ∃ res tx ta te, C.processEvent m ev now = Except.ok res
          ∧ res.trace = tx ++ ta ++ te
          ∧ (∀ a ∈ tx, ∃ x, a = ActionEv.exitA x)
          ∧ (ta = [] ∨ ta = [ActionEv.customA])
          ∧ (∀ a ∈ te, ∃ x, a = ActionEv.enterA x)) := by
  refine ⟨fun d0 now => rfl, fun d now => rfl, ?_⟩
  intro τ η ρ inst C m ev now S r h1 h2
  have hne : ¬ (m.phase ≠ Phase.initiated) := by rw [h1]; decide
  rcases hX : C.exitUpTo (if r.target = S then C.parent S else C.lca S r.target) now
      m.path m.data with ⟨rem, d1, trX, o1⟩
  cases hA : r.act with
  | none =>
      rcases hEnt : C.enterTarget (if r.target = S then C.parent S else C.lca S r.target)
          r.target now d1 with ⟨ps, d3, trE, o3⟩
      refine ⟨⟨⟨Phase.initiated, ps ++ rem, d3⟩, trX ++ [] ++ trE, o1 ++ [] ++ o3⟩,
        trX, [], trE, ?_, rfl, ?_, Or.inl rfl, ?_⟩
      · unfold Chart.processEvent
        rw [if_neg hne, h2]
        simp only [hX, hA, hEnt]
      · exact exitUpTo_trace_exits C _ now m.path m.data rem d1 trX o1 hX
      · exact enterTarget_trace_enters C _ r.target now d1 ps d3 trE o3 hEnt
  | some f =>
      rcases hAct : f now d1 with ⟨d2, o2⟩
      rcases hEnt : C.enterTarget (if r.target = S then C.parent S else C.lca S r.target)
          r.target now d2 with ⟨ps, d3, trE, o3⟩
      refine ⟨⟨⟨Phase.initiated, ps ++ rem, d3⟩, trX ++ [ActionEv.customA] ++ trE,
          o1 ++ o2 ++ o3⟩, trX, [ActionEv.customA], trE, ?_, rfl, ?_, Or.inr rfl, ?_⟩
      · unfold Chart.processEvent
        rw [if_neg hne, h2]
        simp only [hX, hA, hAct, hEnt]
      · exact exitUpTo_trace_exits C _ now m.path m.data rem d1 trX o1 hX
      · exact enterTarget_trace_enters C _ r.target now d2 ps d3 trE o3 hEnt

/-- Witness for C4 at the concrete `EvStartStop`-in-`Running` transition
of the StopWatch. -/
theorem transition_entry_exit_ordering_witness :
    ∃ res tx ta te,
      swChart.processEvent ⟨Phase.initiated, [SWState.Running, SWState.Active], ⟨5, 2⟩⟩
          SWEvent.EvStartStop 10 = Except.ok res
      ∧ res.trace = tx ++ ta ++ te
      ∧ (∀ a ∈ tx, ∃ x, a = ActionEv.exitA x)
      ∧ (ta = [] ∨ ta = [ActionEv.customA])
      ∧ (∀ a ∈ te, ∃ x, a = ActionEv.enterA x) :=
  transition_entry_exit_ordering.2.2 SWState SWEvent SWData swChart
    ⟨Phase.initiated, [SWState.Running, SWState.Active], ⟨5, 2⟩⟩ SWEvent.EvStartStop 10
    SWState.Running ⟨SWState.Stopped, none⟩ rfl rfl

/-- C5: machine lifecycle preconditions: for every machine,
`process_event` on an uninitiated machine fails with a precondition
violation, and `initiate` on an already initiated machine (no intervening
`terminate`) fails with a precondition violation. -/
theorem machine_lifecycle_preconditions :
    (∀ (τ η ρ : Type) [DecidableEq τ] (C : Chart τ η ρ) (m : MState τ ρ) (ev : η)
        (now : Time),
        m.phase = Phase.uninitiated →
        C.processEvent m ev now
          = Except.error
              "precondition violation: process_event on a machine that is not initiated")
    ∧ (∀ (τ η ρ : Type) [DecidableEq τ] (C : Chart τ η ρ) (m : MState τ ρ) (now : Time),
        m.phase = Phase.initiated →
        C.initiate m now
          = Except.error
              "precondition violation: initiate on an already initiated machine") := by
  constructor
  · intro τ η ρ inst C m ev now h
    unfold Chart.processEvent
    rw [if_pos (show m.phase ≠ Phase.initiated from by rw [h]; decide)]
  · intro τ η ρ inst C m now h
    unfold Chart.initiate
    rw [if_pos (show m.phase ≠ Phase.uninitiated from by rw [h]; decide)]

/-- Witness for C5: a fresh Greeting machine rejects `process_event`, and
an initiated StopWatch rejects a second `initiate`. -/
theorem machine_lifecycle_preconditions_witness :
    greetingChart.processEvent greetingUninit 0 0
        = Except.error
            "precondition violation: process_event on a machine that is not initiated"
    ∧ swChart.initiate ⟨Phase.initiated, [SWState.Stopped, SWState.Active], ⟨0, 0⟩⟩ 5
        = Except.error
            "precondition violation: initiate on an already initiated machine" :=
  ⟨machine_lifecycle_preconditions.1 GState Nat Unit greetingChart greetingUninit 0 0 rfl,
   machine_lifecycle_preconditions.2 SWState SWEvent SWData swChart
      ⟨Phase.initiated, [SWState.Stopped, SWState.Active], ⟨0, 0⟩⟩ 5 rfl⟩

/-- C6: `terminate` on an initiated machine exits every state on the
Active-State Path in path (innermost-to-outermost) order and marks the
machine terminated; on an already-terminated or never-initiated machine it
has no effect and does not fail; concretely, terminating the StopWatch in
`Running` exits `Running` then `Active`. -/
theorem terminate_exits_innermost_first_idempotent :
    (∀ (τ η ρ : Type) [DecidableEq τ] (C : Chart τ η ρ) (m : MState τ ρ) (now : Time),
        m.phase = Phase.initiated →
        ∃ d2 o, C.terminate m now
          = ⟨⟨Phase.terminated, [], d2⟩, m.path.map ActionEv.exitA, o⟩)
    ∧ (∀ (τ η ρ : Type) [DecidableEq τ] (C : Chart τ η ρ) (m : MState τ ρ) (now : Time),
        m.phase ≠ Phase.initiated →
        C.terminate m now = ⟨m, [], []⟩)
    ∧ (∀ (d : SWData) (now : Time),
        swChart.terminate ⟨Phase.initiated, [SWState.Running, SWState.Active], d⟩ now
          = ⟨⟨Phase.terminated, [], ⟨d.elapsedTime + (now - d.startTime), d.startTime⟩⟩,
             [ActionEv.exitA SWState.Running, ActionEv.exitA SWState.Active], []⟩) := by
  refine ⟨?_, ?_, fun d now => rfl⟩
  · intro τ η ρ inst C m now h
    obtain ⟨d2, o, hE⟩ := exitUpTo_none C now m.path m.data
    refine ⟨d2, o, ?_⟩
    unfold Chart.terminate
    rw [if_pos h]
    simp only [hE]
  · intro τ η ρ inst C m now h
    unfold Chart.terminate
    rw [if_neg h]

/-- Witness for C6: terminating the StopWatch in `Running` exits both
states innermost-first; terminating a terminated machine does nothing. -/
theorem terminate_exits_innermost_first_idempotent_witness :
    (∃ d2 o, swChart.terminate
          ⟨Phase.initiated, [SWState.Running, SWState.Active], ⟨1, 2⟩⟩ 10
        = ⟨⟨Phase.terminated, [], d2⟩,
           List.map ActionEv.exitA [SWState.Running, SWState.Active], o⟩)
    ∧ swChart.terminate ⟨Phase.terminated, [], ⟨1, 2⟩⟩ 10
        = ⟨⟨Phase.terminated, [], ⟨1, 2⟩⟩, [], []⟩ :=
  ⟨terminate_exits_innermost_first_idempotent.1 SWState SWEvent SWData swChart
      ⟨Phase.initiated, [SWState.Running, SWState.Active], ⟨1, 2⟩⟩ 10 rfl,
   terminate_exits_innermost_first_idempotent.2.1 SWState SWEvent SWData swChart
      ⟨Phase.terminated, [], ⟨1, 2⟩⟩ 10 (by decide)⟩

/-- C7: Greeting end-to-end scenario: `initiate` fires exactly one entry
action, producing the "hello" output; any sequence of events processed in
between leaves the machine untouched and enters no state; `terminate`
(destruction at the end of `main`) fires exactly one exit action,
producing the "goodbye" output — so no state other than `Greeting` is
ever entered. -/
theorem greeting_lifecycle :
    (∀ now : Time, greetingChart.initiate greetingUninit now
        = Except.ok ⟨⟨Phase.initiated, [GState.Greeting], ()⟩,
            [ActionEv.enterA GState.Greeting], ["Hello World!\n"]⟩)
    ∧ (∀ evs : List (Nat × Time),
        greetingChart.runEvents ⟨Phase.initiated, [GState.Greeting], ()⟩ evs
          = some (⟨Phase.initiated, [GState.Greeting], ()⟩, [], []))
    ∧ (∀ now : Time, greetingChart.terminate ⟨Phase.initiated, [GState.Greeting], ()⟩ now
        = ⟨⟨Phase.terminated, [], ()⟩, [ActionEv.exitA GState.Greeting],
           ["Bye Bye World!\n"]⟩) := by
  refine ⟨fun now => rfl, ?_, fun now => rfl⟩
  exact runEvents_const greetingChart _ (fun e t => rfl)

/-- C8: `state_cast` scans the Active-State Path for the unique active
state implementing `IElapsedTime`; on every reachable state of an
initiated StopWatch it succeeds (the leaf is `Stopped` or `Running`, both
implement the interface, and `Active` does not, so exactly one active
state matches), hence `StopWatch::ElapsedTime` never hits the failure
branch. -/
theorem state_cast_never_fails_on_stopwatch (m : MState SWState SWData) (now : Time)
    (h : SWReach m) :
    (∃ leaf, Chart.stateCast m implementsIET = some leaf
        ∧ implementsIET leaf = true
        ∧ (leaf = SWState.Stopped ∨ leaf = SWState.Running))
    ∧ (∃ v, StopWatch.ElapsedTime m now = some v)
    ∧ (m.path.filter implementsIET).length = 1
    ∧ implementsIET SWState.Active = false := by
  obtain ⟨hph, hpath⟩ := swReach_invariant m h
  obtain ⟨ph, path, dat⟩ := m
  simp only at hpath
  rcases hpath with hp | hp <;> subst hp
  · exact ⟨⟨SWState.Stopped, rfl, rfl, Or.inl rfl⟩, ⟨dat.elapsedTime, rfl⟩, rfl, rfl⟩
  · exact ⟨⟨SWState.Running, rfl, rfl, Or.inr rfl⟩,
      ⟨dat.elapsedTime + (now - dat.startTime), rfl⟩, rfl, rfl⟩

/-- Witness for C8 at the machine state reached by `initiate`. -/
theorem state_cast_never_fails_on_stopwatch_witness :
    (∃ leaf, Chart.stateCast
          (⟨Phase.initiated, [SWState.Stopped, SWState.Active], ⟨0, 0⟩⟩
            : MState SWState SWData) implementsIET = some leaf
        ∧ implementsIET leaf = true
        ∧ (leaf = SWState.Stopped ∨ leaf = SWState.Running))
    ∧ (∃ v, StopWatch.ElapsedTime
          (⟨Phase.initiated, [SWState.Stopped, SWState.Active], ⟨0, 0⟩⟩
            : MState SWState SWData) 3 = some v)
    ∧ (([SWState.Stopped, SWState.Active].filter implementsIET).length = 1)
    ∧ implementsIET SWState.Active = false :=
  state_cast_never_fails_on_stopwatch _ 3 (SWReach.init ⟨0, 0⟩ 0
    ⟨⟨Phase.initiated, [SWState.Stopped, SWState.Active], ⟨0, 0⟩⟩,
     [ActionEv.enterA SWState.Active, ActionEv.enterA SWState.Stopped], []⟩ rfl)

/-- C9: Active-State Path invariant: every reachable state of the
StopWatch (after `initiate`, preserved by every `process_event`) is
initiated with exactly the path `Stopped → Active` or `Running → Active`
(leaf first); the path is contiguous — each state's statically declared
Context is the next state on the path — and rooted at the outermost
state `Active` of the `StopWatch` machine. -/
theorem active_state_path_invariant (m : MState SWState SWData) (h : SWReach m) :
    m.phase = Phase.initiated
    ∧ (m.path = [SWState.Stopped, SWState.Active]
       ∨ m.path = [SWState.Running, SWState.Active])
    ∧ m.path.Chain' (fun a b => swChart.parent a = some b)
    ∧ m.path.getLast? = some swChart.outermost := by
  obtain ⟨hph, hpath⟩ := swReach_invariant m h
  refine ⟨hph, hpath, ?_, ?_⟩
  · rcases hpath with hp | hp <;> rw [hp] <;> simp [List.chain'_cons, swChart]
  · rcases hpath with hp | hp <;> rw [hp] <;> decide

/-- Witness for C9 at the machine state reached by `initiate`. -/
theorem active_state_path_invariant_witness :
    Phase.initiated = Phase.initiated
    ∧ (([SWState.Stopped, SWState.Active] : List SWState)
          = [SWState.Stopped, SWState.Active]
       ∨ ([SWState.Stopped, SWState.Active] : List SWState)
          = [SWState.Running, SWState.Active])
    ∧ List.Chain' (fun a b => swChart.parent a = some b)
        [SWState.Stopped, SWState.Active]
    ∧ ([SWState.Stopped, SWState.Active] : List SWState).getLast?
        = some swChart.outermost :=
  active_state_path_invariant _ (SWReach.init ⟨0, 0⟩ 0
    ⟨⟨Phase.initiated, [SWState.Stopped, SWState.Active], ⟨0, 0⟩⟩,
     [ActionEv.enterA SWState.Active, ActionEv.enterA SWState.Stopped], []⟩ rfl)
